import Mathlib

/-!
Verification of the hnscan-backend index/aggregation engine.

The development shallowly embeds the JavaScript sources:
  * src/lib/types.js      — ChainState and ChartData record types;
  * src/lib/plugin.js     — HnscanDB (saveEntry, setChartData, verifyNetwork,
                            open, addressFunding/Spent/Balance/Unspent,
                            nameHistory, getState);
  * src/unnamed sources   — util.sortTXs (util.js) and the
                            GET /name/:name/history route (http.js),
                            which serve the name history.

Modelling conventions: JavaScript numbers holding integral amounts are
embedded as Int (Nat where the source can only hold unsigned values);
32-byte hashes and transaction ids are embedded as Nat, whose numeric
order coincides with the byte-lexicographic order of fixed-width
big-endian byte strings; the floating-point difficulty field is embedded
as Rat, since the claims under study concern which points are aggregated
and by which arithmetic mean, not IEEE rounding; JavaScript undefined /
NaN propagation is embedded with Option; a thrown exception is an
Except.error or an Option none at the function boundary.

The byte-ordered key-value store (bdb) is an external dependency; it is
embedded as an association list kept in ascending key order, with put
inserting at the ordered position and range iteration reading the list
in order, matching the contract stated for it.
-/

namespace Hnscan

/-! ## Chain state (src/lib/types.js, class ChainState)

The persisted chain state consists of the five encoded fields
(tip, tx, coin, value, burned); the in-memory committed flag is never
encoded or injected and is not part of the state. -/

/-- consensus.ZERO_HASH, the 32-byte zero hash, as a Nat. -/
def zeroHash : Nat := 0

structure ChainState where
  tip : Nat
  tx : Int
  coin : Int
  value : Int
  burned : Int
  deriving Repr, DecidableEq

/-- The constructor of ChainState in types.js: zero hash tip and zero totals. -/
def ChainState.initial : ChainState :=
  { tip := zeroHash, tx := 0, coin := 0, value := 0, burned := 0 }

/-! Covenant type constants from hsd rules.types, as used by plugin.js
through output.covenant.isRegister() and types.UPDATE / types.REVOKE. -/

def typeREGISTER : Nat := 6
def typeUPDATE : Nat := 7
def typeREVOKE : Nat := 11

/-- A transaction output as read by saveEntry: its value, its covenant
type, and whether output.isUnspendable() holds. -/
structure Output where
  value : Int
  covType : Nat
  unspendable : Bool
  deriving Repr, DecidableEq

/-- An outpoint (previous-output reference): transaction id and index. -/
def Outpoint : Type := Nat × Nat

instance : DecidableEq Outpoint := instDecidableEqProd

/-- A transaction as read by saveEntry: input prevouts and outputs. -/
structure Tx where
  inputs : List Outpoint
  outputs : List Output

/-- A block as read by saveEntry: its hash, the hash of its previous
block (entry.prevBlock), and its transactions. -/
structure Block where
  hashVal : Nat
  prevBlock : Nat
  txs : List Tx

/-- ChainState.add: coin += 1; value += coin.value. -/
def ChainState.add (s : ChainState) (c : Output) : ChainState :=
  { s with coin := s.coin + 1, value := s.value + c.value }

/-- ChainState.spend: coin -= 1; value -= coin.value. -/
def ChainState.spend (s : ChainState) (c : Output) : ChainState :=
  { s with coin := s.coin - 1, value := s.value - c.value }

/-- ChainState.burn: coin += 1; burned += coin.value. -/
def ChainState.burn (s : ChainState) (c : Output) : ChainState :=
  { s with coin := s.coin + 1, burned := s.burned + c.value }

/-- ChainState.unburn: coin -= 1; burned -= coin.value. -/
def ChainState.unburn (s : ChainState) (c : Output) : ChainState :=
  { s with coin := s.coin - 1, burned := s.burned - c.value }

/-- The output loop body of HnscanDB.saveEntry: skip unspendable
outputs, burn register covenants, skip the administrative covenant
range types.UPDATE .. types.REVOKE, and add everything else. -/
def applyOutput (s : ChainState) (o : Output) : ChainState :=
  if o.unspendable then s
  else if o.covType = typeREGISTER then s.burn o
  else if typeUPDATE ≤ o.covType ∧ o.covType ≤ typeREVOKE then s
  else s.add o

/-- The input loop of saveEntry for one non-coinbase transaction:
spend view.getOutput(prevout) for every input. -/
def spendPrevouts (view : Outpoint → Output) (s : ChainState) (ins : List Outpoint) : ChainState :=
  ins.foldl (fun st p => st.spend (view p)) s

/-- One iteration of the transaction loop of saveEntry: inputs are
spent only when the transaction is not the coinbase (i > 0), then every
output is processed. -/
def applyTx (view : Outpoint → Output) (s : ChainState) (t : Tx) (coinbase : Bool) : ChainState :=
  let s1 := if coinbase then s else spendPrevouts view s t.inputs
  t.outputs.foldl applyOutput s1

/-- HnscanDB.saveEntry as a pure state transition: clone, connect
(tx += txs.length), the transaction loop, then commit(block.hash())
stamping the tip. -/
def connectBlock (view : Outpoint → Output) (s : ChainState) (b : Block) : ChainState :=
  let p := { s with tx := s.tx + b.txs.length }
  let q := match b.txs with
    | [] => p
    | cb :: rest => rest.foldl (fun st t => applyTx view st t false) (applyTx view p cb true)
  { q with tip := b.hashVal }

/-- Modelled from the spec: the block-disconnect path lives in
indexer.js, which is not among the sources; §4.1 specifies it as the
exact symmetric inverse of connect (unburn and unspend reversing add
and spend, decrementing the transaction count, restoring the previous
tip). Each connect step is undone in reverse order. -/
def unapplyOutput (s : ChainState) (o : Output) : ChainState :=
  if o.unspendable then s
  else if o.covType = typeREGISTER then s.unburn o
  else if typeUPDATE ≤ o.covType ∧ o.covType ≤ typeREVOKE then s
  else s.spend o

/-- Modelled from the spec: inverse of the input loop — add back every
previously spent output, in reverse order. -/
def unspendPrevouts (view : Outpoint → Output) (s : ChainState) (ins : List Outpoint) : ChainState :=
  ins.foldl (fun st p => st.add (view p)) s

/-- Modelled from the spec: inverse of one transaction-loop iteration. -/
def undoTx (view : Outpoint → Output) (s : ChainState) (t : Tx) (coinbase : Bool) : ChainState :=
  let s1 := t.outputs.reverse.foldl unapplyOutput s
  if coinbase then s1 else unspendPrevouts view s1 t.inputs.reverse

/-- Modelled from the spec: the disconnect transition of §4.1 — undo
the transaction loop in reverse, decrement the transaction count, and
stamp entry.prevBlock as the tip. -/
def disconnectBlock (view : Outpoint → Output) (s : ChainState) (b : Block) : ChainState :=
  let q := match b.txs with
    | [] => s
    | cb :: rest => undoTx view (rest.reverse.foldl (fun st t => undoTx view st t false) s) cb true
  let p := { q with tx := q.tx - b.txs.length }
  { p with tip := b.prevBlock }

/-- Connecting a sequence of blocks, each with its coin view. -/
def connectChain (s : ChainState) (l : List (Block × (Outpoint → Output))) : ChainState :=
  l.foldl (fun st bv => connectBlock bv.2 st bv.1) s

/-- Disconnecting a sequence of blocks, each with its coin view. -/
def disconnectChain (s : ChainState) (l : List (Block × (Outpoint → Output))) : ChainState :=
  l.foldl (fun st bv => disconnectBlock bv.2 st bv.1) s

/-- The blocks form a chain on top of the given tip hash. -/
def Chained (tip : Nat) : List Block → Prop
  | [] => True
  | b :: bs => b.prevBlock = tip ∧ Chained b.hashVal bs

/-! Cancellation infrastructure for the round trip. -/

theorem foldl_reverse_cancel {α β : Type} {f g : α → β → α}
    (h : ∀ s b, g (f s b) b = s) :
    ∀ (l : List β) (s : α), l.reverse.foldl g (l.foldl f s) = s := by
  intro l
  induction l with
  | nil => intro s; rfl
  | cons a t ih =>
    intro s
    simp only [List.foldl_cons, List.reverse_cons, List.foldl_append, List.foldl_nil]
    rw [ih (f s a), h]

theorem unapplyOutput_applyOutput (s : ChainState) (o : Output) :
    unapplyOutput (applyOutput s o) o = s := by
  cases s with
  | mk tip tx coin value burned =>
    simp only [applyOutput, unapplyOutput, ChainState.add, ChainState.spend,
      ChainState.burn, ChainState.unburn]
    split_ifs <;> simp_all [ChainState.mk.injEq]

theorem add_spend (s : ChainState) (c : Output) : (s.spend c).add c = s := by
  cases s with
  | mk tip tx coin value burned =>
    simp [ChainState.add, ChainState.spend]

theorem undoTx_applyTx (view : Outpoint → Output) (s : ChainState) (t : Tx) (cb : Bool) :
    undoTx view (applyTx view s t cb) t cb = s := by
  unfold applyTx undoTx spendPrevouts unspendPrevouts
  cases cb with
  | true =>
    simp only [if_true]
    exact foldl_reverse_cancel unapplyOutput_applyOutput t.outputs s
  | false =>
    simp only [Bool.false_eq_true, if_false]
    rw [foldl_reverse_cancel unapplyOutput_applyOutput t.outputs]
    exact foldl_reverse_cancel (fun st p => add_spend st (view p)) t.inputs s

theorem foldl_tip {β : Type} {f : ChainState → β → ChainState}
    (hf : ∀ s b h, f { s with tip := h } b = { f s b with tip := h }) :
    ∀ (l : List β) (s : ChainState) (h : Nat),
      l.foldl f { s with tip := h } = { l.foldl f s with tip := h } := by
  intro l
  induction l with
  | nil => intro s h; rfl
  | cons a t ih =>
    intro s h
    simp only [List.foldl_cons]
    rw [hf, ih]

theorem unapplyOutput_tip (s : ChainState) (o : Output) (h : Nat) :
    unapplyOutput { s with tip := h } o = { unapplyOutput s o with tip := h } := by
  simp only [unapplyOutput, ChainState.spend, ChainState.unburn]
  split_ifs <;> rfl

theorem undoTx_tip (view : Outpoint → Output) (s : ChainState) (t : Tx) (cb : Bool) (h : Nat) :
    undoTx view { s with tip := h } t cb = { undoTx view s t cb with tip := h } := by
  unfold undoTx unspendPrevouts
  rw [foldl_tip (fun s o hh => unapplyOutput_tip s o hh)]
  cases cb with
  | true => simp only [if_true]
  | false =>
    simp only [Bool.false_eq_true, if_false]
    rw [foldl_tip (fun s p hh => rfl)]

theorem disconnectBlock_connectBlock (view : Outpoint → Output) (s : ChainState) (b : Block) :
    disconnectBlock view (connectBlock view s b) b = { s with tip := b.prevBlock } := by
  unfold connectBlock disconnectBlock
  cases htxs : b.txs with
  | nil =>
    cases s with
    | mk tip tx coin value burned =>
      simp [ChainState.mk.injEq]
  | cons cb rest =>
    simp only
    rw [foldl_tip (fun st t h => undoTx_tip view st t false h)]
    rw [foldl_reverse_cancel (fun st t => undoTx_applyTx view st t false) rest]
    rw [undoTx_tip, undoTx_applyTx]
    cases s with
    | mk tip tx coin value burned =>
      simp only [ChainState.mk.injEq, and_true, true_and]
      omega

theorem connectBlock_tip (view : Outpoint → Output) (s : ChainState) (b : Block) :
    (connectBlock view s b).tip = b.hashVal := rfl

/-- C1: connecting a chained sequence of blocks (each with its coin
view) and then disconnecting them in reverse order restores the exact
original chain state — tip, tx count, coin count, circulating value and
burned value included. The disconnect transition is modelled from the
spec because indexer.js is not among the sources. -/
theorem claim1_roundtrip (s : ChainState) (l : List (Block × (Outpoint → Output)))
    (h : Chained s.tip (l.map Prod.fst)) :
    disconnectChain (connectChain s l) l.reverse = s := by
  induction l generalizing s with
  | nil => rfl
  | cons bv t ih =>
    rw [List.map_cons] at h
    obtain ⟨h1, h2⟩ := h
    unfold connectChain disconnectChain
    simp only [List.foldl_cons, List.reverse_cons, List.foldl_append, List.foldl_nil]
    have hrec := ih (connectBlock bv.2 s bv.1) (by rw [connectBlock_tip]; exact h2)
    unfold connectChain disconnectChain at hrec
    rw [hrec, disconnectBlock_connectBlock, h1]

/-- Coin view for the first concrete witness block. -/
def wView1 : Outpoint → Output :=
  fun p => if p = ((9 : Nat), (0 : Nat)) then ⟨450, 0, false⟩ else ⟨0, 0, false⟩

def wTx1 : Tx := { inputs := [], outputs := [⟨5000, 0, false⟩] }

def wTx2 : Tx :=
  { inputs := [(9, 0)],
    outputs := [⟨300, 6, false⟩, ⟨200, 7, false⟩, ⟨100, 0, true⟩, ⟨150, 0, false⟩] }

def wBlock1 : Block := { hashVal := 111, prevBlock := 0, txs := [wTx1, wTx2] }

def wBlock2 : Block :=
  { hashVal := 222, prevBlock := 111, txs := [{ inputs := [], outputs := [⟨2000, 0, false⟩] }] }

def wState : ChainState := { tip := 0, tx := 10, coin := 5, value := 1000, burned := 50 }

def wChain : List (Block × (Outpoint → Output)) :=
  [(wBlock1, wView1), (wBlock2, fun _ => ⟨0, 0, false⟩)]

/-- Witness for the round trip on a concrete two-block chain. -/
theorem claim1_witness :
    disconnectChain (connectChain wState wChain) wChain.reverse = wState :=
  claim1_roundtrip wState wChain ⟨rfl, rfl, trivial⟩

/-- C2: processing a non-unspendable output whose covenant is a
register action of value V during block connect increases the burned
value by exactly V and leaves the circulating value unchanged. -/
theorem claim2_register_burn (s : ChainState) (o : Output)
    (h1 : o.unspendable = false) (h2 : o.covType = typeREGISTER) :
    (applyOutput s o).burned = s.burned + o.value ∧ (applyOutput s o).value = s.value := by
  simp [applyOutput, h1, h2, ChainState.burn]

/-- Witness for the register burn at a concrete state and output. -/
theorem claim2_witness :
    (applyOutput ⟨3, 4, 5, 600, 70⟩ ⟨25, typeREGISTER, false⟩).burned = 70 + 25 ∧
    (applyOutput ⟨3, 4, 5, 600, 70⟩ ⟨25, typeREGISTER, false⟩).value = 600 :=
  claim2_register_burn ⟨3, 4, 5, 600, 70⟩ ⟨25, typeREGISTER, false⟩ rfl rfl

/-- C3: an output whose covenant type lies in the administrative range
types.UPDATE .. types.REVOKE is skipped entirely by the connect loop:
the chain state is unchanged in every field. -/
theorem claim3_admin_skip (s : ChainState) (o : Output)
    (h : typeUPDATE ≤ o.covType ∧ o.covType ≤ typeREVOKE) :
    applyOutput s o = s := by
  obtain ⟨hl, hr⟩ := h
  have hne : o.covType ≠ typeREGISTER := by
    simp only [typeUPDATE] at hl
    simp only [typeREGISTER]
    omega
  unfold applyOutput
  split_ifs <;> simp_all

/-- Witness for the administrative skip at a concrete state and output. -/
theorem claim3_witness :
    applyOutput ⟨1, 2, 3, 40, 5⟩ ⟨99, 8, false⟩ = ⟨1, 2, 3, 40, 5⟩ :=
  claim3_admin_skip ⟨1, 2, 3, 40, 5⟩ ⟨99, 8, false⟩ (by decide)

/-! ## Chart aggregation (src/lib/types.js, class ChartData;
src/lib/plugin.js, HnscanDB.setChartData)

The per-block point carries the entry time, the difficulty, the block
transaction count and the running supply / burned / total-tx totals.
The difficulty is a JavaScript double; it is embedded as a rational,
since the claims concern which points enter the aggregate and with what
arithmetic mean. -/

def daySecs : Nat := 3600 * 24

structure ChartData where
  time : Nat
  difficulty : ℚ
  transactions : Int
  supply : Int
  burned : Int
  totalTx : Int
  deriving Repr, DecidableEq

/-- The reducer of ChartData.fromArray: sum difficulty and
transactions, take the maximum of the running totals. -/
def chartAccum (a b : ChartData) : ChartData :=
  { a with
    difficulty := a.difficulty + b.difficulty,
    transactions := a.transactions + b.transactions,
    supply := max a.supply b.supply,
    burned := max a.burned b.burned,
    totalTx := max a.totalTx b.totalTx }

/-- ChartData.fromArray on a non-empty buffer d :: ds: reduce (seeded
with the first element, as Array.prototype.reduce without an initial
value), divide difficulty by the buffer length, and set time to
Math.floor(data[0].time / 86400). -/
def ChartData.fromArray (d : ChartData) (ds : List ChartData) : ChartData :=
  let sums := ds.foldl chartAccum d
  { sums with
    difficulty := sums.difficulty / ((1 + ds.length : Nat) : ℚ),
    time := d.time / daySecs }

/-- The chart-aggregation state of HnscanDB: the current bucket day,
the in-memory buffer, and the daily records persisted so far under
layout.d keys (in put order). -/
structure ChartState where
  chartDataCurrentDate : Nat
  chartDataCurrent : List ChartData
  flushed : List (Nat × ChartData)
  deriving Repr, DecidableEq

/-- The constructor state: chartDataCurrentDate = 0 and an empty buffer. -/
def ChartState.initial : ChartState :=
  { chartDataCurrentDate := 0, chartDataCurrent := [], flushed := [] }

/-- HnscanDB.setChartData. The initialization branch does not return,
so control falls through to the trailing push and the first point is
buffered twice; the flush branch returns early; the flushed record is
persisted under key date * 86400 where date is the incoming point's
day; a flush with an empty buffer is none because
Array.prototype.reduce throws on an empty array. -/
def setChartData (st : ChartState) (data : ChartData) : Option ChartState :=
  let date := data.time / daySecs
  if st.chartDataCurrentDate = 0 then
    some { st with
      chartDataCurrentDate := date,
      chartDataCurrent := (st.chartDataCurrent ++ [data]) ++ [data] }
  else if st.chartDataCurrentDate < date then
    match st.chartDataCurrent with
    | [] => none
    | d :: ds =>
      some { st with
        flushed := st.flushed ++ [(date * daySecs, ChartData.fromArray d ds)],
        chartDataCurrent := [data],
        chartDataCurrentDate := date }
  else
    some { st with chartDataCurrent := st.chartDataCurrent ++ [data] }

/-- Feeding a sequence of per-block points, one setChartData call each. -/
def feedChart (st : ChartState) : List ChartData → Option ChartState
  | [] => some st
  | d :: ds =>
    match setChartData st d with
    | none => none
    | some st2 => feedChart st2 ds

theorem chartAccum_difficulty (d : ChartData) (ds : List ChartData) :
    (ds.foldl chartAccum d).difficulty = d.difficulty + (ds.map ChartData.difficulty).sum := by
  induction ds generalizing d with
  | nil => simp
  | cons b t ih =>
    simp only [List.foldl_cons, List.map_cons, List.sum_cons]
    rw [ih]
    simp [chartAccum]
    ring

theorem chartAccum_transactions (d : ChartData) (ds : List ChartData) :
    (ds.foldl chartAccum d).transactions = d.transactions + (ds.map ChartData.transactions).sum := by
  induction ds generalizing d with
  | nil => simp
  | cons b t ih =>
    simp only [List.foldl_cons, List.map_cons, List.sum_cons]
    rw [ih]
    simp [chartAccum]
    ring

theorem chartAccum_supply (d : ChartData) (ds : List ChartData) :
    (ds.foldl chartAccum d).supply = (ds.map ChartData.supply).foldl max d.supply := by
  induction ds generalizing d with
  | nil => rfl
  | cons b t ih =>
    simp only [List.foldl_cons, List.map_cons]
    rw [ih]
    rfl

theorem chartAccum_burned (d : ChartData) (ds : List ChartData) :
    (ds.foldl chartAccum d).burned = (ds.map ChartData.burned).foldl max d.burned := by
  induction ds generalizing d with
  | nil => rfl
  | cons b t ih =>
    simp only [List.foldl_cons, List.map_cons]
    rw [ih]
    rfl

theorem chartAccum_totalTx (d : ChartData) (ds : List ChartData) :
    (ds.foldl chartAccum d).totalTx = (ds.map ChartData.totalTx).foldl max d.totalTx := by
  induction ds generalizing d with
  | nil => rfl
  | cons b t ih =>
    simp only [List.foldl_cons, List.map_cons]
    rw [ih]
    rfl

/-- C4 counterexample: from a fresh aggregator, feeding points at times
t0, t0 + 1, t0 + 86399 (day 100) and then t0 + 86400 (day 101) flushes
exactly one record, but it is persisted under key 101 * 86400 — not
currentBucketDay * 86400 = 100 * 86400 as claimed — its transactions
field is the sum (not the maximum) of the buffered points, and its
difficulty is the mean over four buffer entries (the first point having
been buffered twice), not the mean of the first three points. -/
theorem claim4_cex :
    feedChart ChartState.initial
      [⟨8640000, 2, 2, 10, 5, 7⟩, ⟨8640001, 5, 4, 11, 6, 9⟩,
       ⟨8726399, 7, 1, 12, 7, 11⟩, ⟨8726400, 12, 8, 13, 8, 13⟩] =
      some { chartDataCurrentDate := 101,
             chartDataCurrent := [⟨8726400, 12, 8, 13, 8, 13⟩],
             flushed := [(8726400, ⟨100, 4, 9, 12, 7, 11⟩)] } ∧
    (8726400 : Nat) ≠ 100 * daySecs ∧
    (4 : ℚ) ≠ (2 + 5 + 7) / 3 := by
  refine ⟨?_, by decide, by norm_num⟩
  have e1 : setChartData ChartState.initial ⟨8640000, 2, 2, 10, 5, 7⟩
      = some ⟨100, [⟨8640000, 2, 2, 10, 5, 7⟩, ⟨8640000, 2, 2, 10, 5, 7⟩], []⟩ := by
    norm_num [setChartData, ChartState.initial, daySecs]
  have e2 : setChartData ⟨100, [⟨8640000, 2, 2, 10, 5, 7⟩, ⟨8640000, 2, 2, 10, 5, 7⟩], []⟩
      ⟨8640001, 5, 4, 11, 6, 9⟩
      = some ⟨100, [⟨8640000, 2, 2, 10, 5, 7⟩, ⟨8640000, 2, 2, 10, 5, 7⟩,
          ⟨8640001, 5, 4, 11, 6, 9⟩], []⟩ := by
    norm_num [setChartData, daySecs]
  have e3 : setChartData ⟨100, [⟨8640000, 2, 2, 10, 5, 7⟩, ⟨8640000, 2, 2, 10, 5, 7⟩,
        ⟨8640001, 5, 4, 11, 6, 9⟩], []⟩ ⟨8726399, 7, 1, 12, 7, 11⟩
      = some ⟨100, [⟨8640000, 2, 2, 10, 5, 7⟩, ⟨8640000, 2, 2, 10, 5, 7⟩,
          ⟨8640001, 5, 4, 11, 6, 9⟩, ⟨8726399, 7, 1, 12, 7, 11⟩], []⟩ := by
    norm_num [setChartData, daySecs]
  have e4 : setChartData ⟨100, [⟨8640000, 2, 2, 10, 5, 7⟩, ⟨8640000, 2, 2, 10, 5, 7⟩,
        ⟨8640001, 5, 4, 11, 6, 9⟩, ⟨8726399, 7, 1, 12, 7, 11⟩], []⟩ ⟨8726400, 12, 8, 13, 8, 13⟩
      = some ⟨101, [⟨8726400, 12, 8, 13, 8, 13⟩],
          [(8726400, ⟨100, 4, 9, 12, 7, 11⟩)]⟩ := by
    norm_num [setChartData, daySecs, ChartData.fromArray, chartAccum]
  simp [feedChart, e1, e2, e3, e4]

/-- C4 (amended): when a point's day is greater than the current
non-zero bucket day, setChartData flushes exactly one record for the
buffered points, persisted under key newDay * 86400 — the incoming
point's day, not the previous bucket day — whose difficulty is the
arithmetic mean of the buffered points, whose transactions field is
their sum, and whose supply, burned and totalTx fields are maxima; the
buffer is reset to exactly the new point and the bucket day becomes the
new day. -/
theorem claim4_flush (st : ChartState) (data d : ChartData) (ds : List ChartData)
    (h0 : st.chartDataCurrentDate ≠ 0)
    (hlt : st.chartDataCurrentDate < data.time / daySecs)
    (hbuf : st.chartDataCurrent = d :: ds) :
    setChartData st data = some { st with
        flushed := st.flushed ++ [((data.time / daySecs) * daySecs, ChartData.fromArray d ds)],
        chartDataCurrent := [data],
        chartDataCurrentDate := data.time / daySecs } ∧
    (ChartData.fromArray d ds).difficulty
        = ((d :: ds).map ChartData.difficulty).sum / (((d :: ds).length : Nat) : ℚ) ∧
    (ChartData.fromArray d ds).transactions = ((d :: ds).map ChartData.transactions).sum ∧
    (ChartData.fromArray d ds).supply = (ds.map ChartData.supply).foldl max d.supply ∧
    (ChartData.fromArray d ds).burned = (ds.map ChartData.burned).foldl max d.burned ∧
    (ChartData.fromArray d ds).totalTx = (ds.map ChartData.totalTx).foldl max d.totalTx := by
  refine ⟨?_, ?_, ?_, ?_, ?_, ?_⟩
  · simp only [setChartData, if_neg h0, if_pos hlt, hbuf]
  · simp only [ChartData.fromArray, chartAccum_difficulty, List.map_cons, List.sum_cons,
      List.length_cons]
    rw [Nat.add_comm]
  · simp only [ChartData.fromArray, chartAccum_transactions, List.map_cons, List.sum_cons]
  · simp only [ChartData.fromArray, chartAccum_supply]
  · simp only [ChartData.fromArray, chartAccum_burned]
  · simp only [ChartData.fromArray, chartAccum_totalTx]

/-- Witness for the amended flush at a concrete aggregator state. -/
theorem claim4_witness :
    setChartData ⟨5, [⟨432000, 4, 3, 9, 2, 6⟩], []⟩ ⟨604800, 10, 1, 11, 3, 8⟩ =
      some ⟨7, [⟨604800, 10, 1, 11, 3, 8⟩],
        [(604800, ChartData.fromArray ⟨432000, 4, 3, 9, 2, 6⟩ [])]⟩ :=
  (claim4_flush ⟨5, [⟨432000, 4, 3, 9, 2, 6⟩], []⟩ ⟨604800, 10, 1, 11, 3, 8⟩
    ⟨432000, 4, 3, 9, 2, 6⟩ [] (by decide) (by decide) rfl).1

/-- C10: on the very first setChartData call (chartDataCurrentDate = 0)
the initialization branch pushes the point and control falls through to
the trailing push, so the first point is buffered twice; it is then
double-counted in the first flushed aggregate — weighted twice in the
difficulty mean and counted twice in the summed transactions field. -/
theorem claim10_double_push (p p2 q : ChartData)
    (hp : p.time / daySecs ≠ 0)
    (hp2 : p2.time / daySecs = p.time / daySecs)
    (hq : p.time / daySecs < q.time / daySecs) :
    setChartData ChartState.initial p
      = some { chartDataCurrentDate := p.time / daySecs,
               chartDataCurrent := [p, p], flushed := [] } ∧
    feedChart ChartState.initial [p, p2, q]
      = some { chartDataCurrentDate := q.time / daySecs,
               chartDataCurrent := [q],
               flushed := [((q.time / daySecs) * daySecs, ChartData.fromArray p [p, p2])] } ∧
    (ChartData.fromArray p [p, p2]).difficulty
      = (p.difficulty + p.difficulty + p2.difficulty) / 3 ∧
    (ChartData.fromArray p [p, p2]).transactions
      = p.transactions + p.transactions + p2.transactions := by
  have h1 : setChartData ChartState.initial p
      = some ⟨p.time / daySecs, [p, p], []⟩ := by
    simp [setChartData, ChartState.initial]
  have h2 : setChartData ⟨p.time / daySecs, [p, p], []⟩ p2
      = some ⟨p.time / daySecs, [p, p, p2], []⟩ := by
    simp [setChartData, hp, hp2]
  have h3 : setChartData ⟨p.time / daySecs, [p, p, p2], []⟩ q
      = some ⟨q.time / daySecs, [q],
          [((q.time / daySecs) * daySecs, ChartData.fromArray p [p, p2])]⟩ := by
    simp [setChartData, hp, hq]
  refine ⟨h1, ?_, ?_, ?_⟩
  · simp [feedChart, h1, h2, h3]
  · simp only [ChartData.fromArray, List.foldl_cons, List.foldl_nil, List.length_cons,
      List.length_nil]
    simp [chartAccum]
  · simp only [ChartData.fromArray, List.foldl_cons, List.foldl_nil]
    simp [chartAccum]

/-! ## Ordered key-value store (bdb) and the address index
(src/lib/plugin.js, HnscanDB._addressFunding, _addressSpent,
addressBalance, addressUnspent)

Keys of the funding (layout.o), spend-pointer (layout.i) and
name-history (layout.n) families are concatenations of two fixed-width
byte strings, embedded as pairs of Nat whose numeric order coincides
with the byte order; range iteration yields entries in ascending key
order, per the store contract. layout.js is absent from the sources;
the key shapes are those of the persisted layout in the spec:
addressHash‖txid, truncatedTxid‖outputIndex, nameHash‖txid. -/

def keyLt (a b : Nat × Nat) : Prop := a.1 < b.1 ∨ (a.1 = b.1 ∧ a.2 < b.2)

instance (a b : Nat × Nat) : Decidable (keyLt a b) := by unfold keyLt; infer_instance

/-- A batched put into the byte-ordered store: insert at the ordered
position, replacing an equal key. -/
def storePut (k : Nat × Nat) (v : Nat) : List ((Nat × Nat) × Nat) → List ((Nat × Nat) × Nat)
  | [] => [(k, v)]
  | e :: rest =>
    if keyLt k e.1 then (k, v) :: e :: rest
    else if k = e.1 then (k, v) :: rest
    else e :: storePut k v rest

/-- db.get on a two-component key. -/
def storeGet (k : Nat × Nat) (store : List ((Nat × Nat) × Nat)) : Option Nat :=
  (store.find? (fun e => decide (e.1 = k))).map Prod.snd

/-- db.get on a one-component key (the layout.t txid → height family). -/
def storeGet1 (k : Nat) (store : List (Nat × Nat)) : Option Nat :=
  (store.find? (fun e => decide (e.1 = k))).map Prod.snd

/-- A transaction as returned by client.getTX, reduced to what the
address queries read: per output, the address hash and the value. -/
structure ClientTx where
  outputs : List (Nat × Int)
  deriving Repr, DecidableEq

/-- One record built by the _addressFunding iteration: tx hash and
height from the layout.o key and value, plus the resolution against
the fetched transaction — the first output index paying the address
and its value, undefined (none) when no output matches. -/
structure FundingRec where
  txHash : Nat
  height : Nat
  res : Option (Nat × Int)
  deriving Repr, DecidableEq

/-- The output scan of _addressFunding: first output whose address
hash equals the user hash, with its index. -/
def findAddrOutput (userHash : Nat) : Nat → List (Nat × Int) → Option (Nat × Int)
  | _, [] => none
  | i, o :: rest => if o.1 = userHash then some (i, o.2) else findAddrOutput userHash (i + 1) rest

/-- The iteration body of _addressFunding over the layout.o range of
one address; a client.getTX miss throws (none). -/
def addressFundingGo (client : Nat → Option ClientTx) (userHash : Nat) :
    List ((Nat × Nat) × Nat) → Option (List FundingRec)
  | [] => some []
  | e :: rest =>
    match client e.1.2 with
    | none => none
    | some tx =>
      match addressFundingGo client userHash rest with
      | none => none
      | some recs =>
        some ({ txHash := e.1.2, height := e.2,
                res := findAddrOutput userHash 0 tx.outputs } :: recs)

/-- HnscanDB._addressFunding: range scan of layout.o for the address
hash, each key resolved through client.getTX. -/
def addressFunding (store : List ((Nat × Nat) × Nat)) (client : Nat → Option ClientTx)
    (addrHash : Nat) : Option (List FundingRec) :=
  addressFundingGo client addrHash (store.filter (fun e => decide (e.1.1 = addrHash)))

/-- The 8-byte truncation of a 32-byte txid: the big-endian numeric
value of its first 8 bytes. -/
def truncTxid (t : Nat) : Nat := t / 2 ^ 192

/-- One record built by _addressSpent: the spending txid and height,
the funding output pair it resolves, and the funding record's value. -/
structure SpentRec where
  txHash : Nat
  height : Nat
  fundingTx : Nat
  fundingIdx : Nat
  value : Int
  deriving Repr, DecidableEq

/-- HnscanDB._addressSpent: for each funding record, look up the spend
pointer keyed by the truncated funding txid and the resolved output
index, then resolve the spender's height. Encoding an undefined output
index throws, as does reading a missing height record (none). -/
def addressSpent (spendIdx : List ((Nat × Nat) × Nat)) (heightIdx : List (Nat × Nat)) :
    List FundingRec → Option (List SpentRec)
  | [] => some []
  | o :: os =>
    match o.res with
    | none => none
    | some (idx, v) =>
      match storeGet (truncTxid o.txHash, idx) spendIdx with
      | none => addressSpent spendIdx heightIdx os
      | some spender =>
        match storeGet1 spender heightIdx with
        | none => none
        | some h =>
          match addressSpent spendIdx heightIdx os with
          | none => none
          | some ss =>
            some ({ txHash := spender, height := h, fundingTx := o.txHash,
                    fundingIdx := idx, value := v } :: ss)

/-- JavaScript addition where an undefined operand poisons the total
(0 + undefined is NaN). -/
def jsAdd (a b : Option Int) : Option Int :=
  match a, b with
  | some x, some y => some (x + y)
  | _, _ => none

def jsSub (a b : Option Int) : Option Int :=
  match a, b with
  | some x, some y => some (x - y)
  | _, _ => none

/-- The balance object of addressBalance; a none field models NaN. -/
structure Balance where
  confirmed : Option Int
  unconfirmed : Option Int
  received : Option Int
  spent : Option Int
  deriving Repr, DecidableEq

/-- HnscanDB.addressBalance: funding pass, spent pass, then the sums. -/
def addressBalance (store spendIdx : List ((Nat × Nat) × Nat)) (heightIdx : List (Nat × Nat))
    (client : Nat → Option ClientTx) (addrHash : Nat) : Option Balance :=
  match addressFunding store client addrHash with
  | none => none
  | some fs =>
    match addressSpent spendIdx heightIdx fs with
    | none => none
    | some ss =>
      let totalFunded := fs.foldl (fun acc f => jsAdd acc (f.res.map Prod.snd)) (some 0)
      let totalSpent := ss.foldl (fun acc s => jsAdd acc (some s.value)) (some 0)
      some { confirmed := jsSub totalFunded totalSpent,
             unconfirmed := jsSub totalFunded totalSpent,
             received := totalFunded,
             spent := totalSpent }

/-- The values of the resolved funding records, in order. -/
def fundingValues : List FundingRec → List Int
  | [] => []
  | f :: fs =>
    match f.res with
    | some (_, v) => v :: fundingValues fs
    | none => fundingValues fs

/-- The values carried by the spent records, in order. -/
def spentValues (ss : List SpentRec) : List Int := ss.map SpentRec.value

theorem jsAdd_some (x y : Int) : jsAdd (some x) (some y) = some (x + y) := rfl

theorem addressSpent_resolved (spendIdx : List ((Nat × Nat) × Nat))
    (heightIdx : List (Nat × Nat)) :
    ∀ (fs : List FundingRec) (ss : List SpentRec),
      addressSpent spendIdx heightIdx fs = some ss →
      ∀ f ∈ fs, f.res.isSome := by
  intro fs
  induction fs with
  | nil => intro ss h f hf; cases hf
  | cons o os ih =>
    intro ss h f hf
    rw [addressSpent] at h
    cases hres : o.res with
    | none => simp only [hres] at h; exact Option.noConfusion h
    | some iv =>
      obtain ⟨idx, v⟩ := iv
      simp only [hres] at h
      cases hf with
      | head => simp [hres]
      | tail _ hmem =>
        cases hget : storeGet (truncTxid o.txHash, idx) spendIdx with
        | none =>
          simp only [hget] at h
          exact ih ss h f hmem
        | some spender =>
          simp only [hget] at h
          cases hh : storeGet1 spender heightIdx with
          | none => simp only [hh] at h; exact Option.noConfusion h
          | some hgt =>
            simp only [hh] at h
            cases hrec : addressSpent spendIdx heightIdx os with
            | none => simp only [hrec] at h; exact Option.noConfusion h
            | some ss2 => exact ih ss2 hrec f hmem

theorem foldl_jsAdd_resolved :
    ∀ (fs : List FundingRec) (a : Int),
      (∀ f ∈ fs, f.res.isSome) →
      fs.foldl (fun acc f => jsAdd acc (f.res.map Prod.snd)) (some a)
        = some (a + (fundingValues fs).sum) := by
  intro fs
  induction fs with
  | nil => intro a _; simp [fundingValues]
  | cons f fs ih =>
    intro a hres
    have hf : f.res.isSome := hres f (List.mem_cons_self f fs)
    cases hfr : f.res with
    | none => rw [hfr] at hf; cases hf
    | some iv =>
      obtain ⟨i, v⟩ := iv
      have hstep : jsAdd (some a) (Option.map Prod.snd (some ((i : Nat), (v : Int)))) = some (a + v) := rfl
      simp only [List.foldl_cons, fundingValues, hfr, hstep, List.sum_cons]
      rw [ih (a + v) (fun g hg => hres g (List.mem_cons_of_mem f hg))]
      congr 1
      ring

theorem foldl_jsAdd_spent :
    ∀ (ss : List SpentRec) (a : Int),
      ss.foldl (fun acc s => jsAdd acc (some s.value)) (some a)
        = some (a + (spentValues ss).sum) := by
  intro ss
  induction ss with
  | nil => intro a; simp [spentValues]
  | cons s ss ih =>
    intro a
    simp only [List.foldl_cons, jsAdd_some]
    rw [ih (a + s.value)]
    congr 1
    simp only [spentValues, List.map_cons, List.sum_cons]
    ring

/-- C5: a successfully computed address balance satisfies
received = sum of resolved funding values, spent = sum of spent
values, confirmed = received − spent, and unconfirmed = confirmed. -/
theorem claim5_balance (store spendIdx : List ((Nat × Nat) × Nat))
    (heightIdx : List (Nat × Nat)) (client : Nat → Option ClientTx) (addrHash : Nat)
    (fs : List FundingRec) (ss : List SpentRec)
    (hf : addressFunding store client addrHash = some fs)
    (hs : addressSpent spendIdx heightIdx fs = some ss) :
    addressBalance store spendIdx heightIdx client addrHash
      = some { confirmed := some ((fundingValues fs).sum - (spentValues ss).sum),
               unconfirmed := some ((fundingValues fs).sum - (spentValues ss).sum),
               received := some (fundingValues fs).sum,
               spent := some (spentValues ss).sum } := by
  have hres := addressSpent_resolved spendIdx heightIdx fs ss hs
  simp only [addressBalance, hf, hs]
  rw [foldl_jsAdd_resolved fs 0 hres, foldl_jsAdd_spent ss 0]
  simp [jsSub]

def wStore : List ((Nat × Nat) × Nat) := [((1, 100), 5), ((1, 200), 6)]

def wClient : Nat → Option ClientTx := fun t =>
  if t = 100 then some ⟨[(1, 40)]⟩
  else if t = 200 then some ⟨[(2, 99), (1, 60)]⟩
  else none

def wSpendIdx : List ((Nat × Nat) × Nat) := [((0, 0), 300)]

def wHeightIdx : List (Nat × Nat) := [(300, 7)]

def wFunding : List FundingRec :=
  [⟨100, 5, some (0, 40)⟩, ⟨200, 6, some (1, 60)⟩]

def wSpent : List SpentRec := [⟨300, 7, 100, 0, 40⟩]

/-- Witness for the balance identity on a concrete index. -/
theorem claim5_witness :
    addressBalance wStore wSpendIdx wHeightIdx wClient 1
      = some { confirmed := some 60, unconfirmed := some 60,
               received := some 100, spent := some 40 } :=
  claim5_balance wStore wSpendIdx wHeightIdx wClient 1 wFunding wSpent (by decide) (by decide)

structure UnspentRec where
  txHash : Nat
  height : Nat
  pos : Option Nat
  value : Option Int
  deriving Repr, DecidableEq

/-- The unspent entry addressUnspent builds from a funding record. -/
def toUnspent (f : FundingRec) : UnspentRec :=
  { txHash := f.txHash, height := f.height,
    pos := f.res.map Prod.fst, value := f.res.map Prod.snd }

/-- HnscanDB.addressUnspent: the funding records, minus — for every
spent record — each entry whose tx hash equals the spent record's
funding txid; the output index stored in the spent pair is not
consulted by the filter. -/
def addressUnspent (store spendIdx : List ((Nat × Nat) × Nat)) (heightIdx : List (Nat × Nat))
    (client : Nat → Option ClientTx) (addrHash : Nat) : Option (List UnspentRec) :=
  match addressFunding store client addrHash with
  | none => none
  | some fs =>
    match addressSpent spendIdx heightIdx fs with
    | none => none
    | some ss =>
      some (ss.foldl (fun txs s => txs.filter (fun t => decide (t.txHash ≠ s.fundingTx)))
        (fs.map toUnspent))

/-- The store invariant: entries are in strictly ascending key order,
as the byte-ordered store keeps them. -/
def StoreSorted (store : List ((Nat × Nat) × Nat)) : Prop :=
  List.Pairwise (fun a b => keyLt a.1 b.1) store

theorem foldl_filter {α β : Type} (p : β → α → Bool) :
    ∀ (ss : List β) (l : List α),
      ss.foldl (fun acc s => acc.filter (p s)) l
        = l.filter (fun a => ss.all (fun s => p s a)) := by
  intro ss
  induction ss with
  | nil => intro l; simp
  | cons s t ih =>
    intro l
    simp only [List.foldl_cons, List.all_cons]
    rw [ih, List.filter_filter]
    apply List.filter_congr
    intro a _
    rw [Bool.and_comm]

theorem addressSpent_provenance (spendIdx : List ((Nat × Nat) × Nat))
    (heightIdx : List (Nat × Nat)) :
    ∀ (fs : List FundingRec) (ss : List SpentRec),
      addressSpent spendIdx heightIdx fs = some ss →
      ∀ s ∈ ss, ∃ o ∈ fs, s.fundingTx = o.txHash ∧ o.res = some (s.fundingIdx, s.value) := by
  intro fs
  induction fs with
  | nil =>
    intro ss h s hs
    rw [addressSpent] at h
    cases h
    cases hs
  | cons o os ih =>
    intro ss h s hs
    rw [addressSpent] at h
    cases hres : o.res with
    | none => simp only [hres] at h; exact Option.noConfusion h
    | some iv =>
      obtain ⟨idx, v⟩ := iv
      simp only [hres] at h
      cases hget : storeGet (truncTxid o.txHash, idx) spendIdx with
      | none =>
        simp only [hget] at h
        obtain ⟨o2, hmem, h1, h2⟩ := ih ss h s hs
        exact ⟨o2, List.mem_cons_of_mem o hmem, h1, h2⟩
      | some spender =>
        simp only [hget] at h
        cases hh : storeGet1 spender heightIdx with
        | none => simp only [hh] at h; exact Option.noConfusion h
        | some hgt =>
          simp only [hh] at h
          cases hrec : addressSpent spendIdx heightIdx os with
          | none => simp only [hrec] at h; exact Option.noConfusion h
          | some ss2 =>
            simp only [hrec] at h
            cases h
            cases hs with
            | head => exact ⟨o, List.mem_cons_self o os, rfl, hres⟩
            | tail _ hmem2 =>
              obtain ⟨o2, hmem, h1, h2⟩ := ih ss2 hrec s hmem2
              exact ⟨o2, List.mem_cons_of_mem o hmem, h1, h2⟩

theorem addressFundingGo_txids (client : Nat → Option ClientTx) (userHash : Nat) :
    ∀ (entries : List ((Nat × Nat) × Nat)) (fs : List FundingRec),
      addressFundingGo client userHash entries = some fs →
      fs.map FundingRec.txHash = entries.map (fun e => e.1.2) := by
  intro entries
  induction entries with
  | nil =>
    intro fs h
    rw [addressFundingGo] at h
    cases h
    rfl
  | cons e rest ih =>
    intro fs h
    rw [addressFundingGo] at h
    cases hc : client e.1.2 with
    | none => simp only [hc] at h; exact Option.noConfusion h
    | some tx =>
      simp only [hc] at h
      cases hr : addressFundingGo client userHash rest with
      | none => simp only [hr] at h; exact Option.noConfusion h
      | some recs =>
        simp only [hr] at h
        cases h
        simp [ih recs hr]

theorem funding_txids_nodup (store : List ((Nat × Nat) × Nat)) (client : Nat → Option ClientTx)
    (addrHash : Nat) (fs : List FundingRec)
    (hsorted : StoreSorted store)
    (hf : addressFunding store client addrHash = some fs) :
    (fs.map FundingRec.txHash).Nodup := by
  rw [addressFunding] at hf
  rw [addressFundingGo_txids client addrHash _ fs hf]
  have hpf : List.Pairwise (fun a b => keyLt a.1 b.1)
      (store.filter (fun e => decide (e.1.1 = addrHash))) :=
    List.Pairwise.filter _ hsorted
  have hstep : List.Pairwise (fun a b => a.1.2 ≠ b.1.2)
      (store.filter (fun e => decide (e.1.1 = addrHash))) := by
    apply List.Pairwise.imp_of_mem ?_ hpf
    intro a b ha hb hab
    have ha2 : a.1.1 = addrHash := by
      have := (List.mem_filter.mp ha).2
      simpa using this
    have hb2 : b.1.1 = addrHash := by
      have := (List.mem_filter.mp hb).2
      simpa using this
    cases hab with
    | inl hlt => omega
    | inr heq => omega
  exact List.Pairwise.map _ (fun a b hab => hab) hstep

/-- C6: a successfully computed unspent list consists of exactly the
funding records whose (txid, outputIndex) pair does not occur as a
spent funding-output pair — in particular an unspent funding output of
a transaction at a different output index than a spent pair of the
same transaction stays in the result, which holds because one address
can hold at most one funding record per txid (the layout.o key is
addressHash‖txid and store keys are unique). -/
theorem claim6_unspent (store spendIdx : List ((Nat × Nat) × Nat))
    (heightIdx : List (Nat × Nat)) (client : Nat → Option ClientTx) (addrHash : Nat)
    (fs : List FundingRec) (ss : List SpentRec)
    (hsorted : StoreSorted store)
    (hf : addressFunding store client addrHash = some fs)
    (hs : addressSpent spendIdx heightIdx fs = some ss) :
    addressUnspent store spendIdx heightIdx client addrHash
      = some ((fs.filter (fun f =>
          decide (∀ s ∈ ss, ¬(s.fundingTx = f.txHash ∧ f.res.map Prod.fst = some s.fundingIdx)))).map
            toUnspent) := by
  have hnodup := funding_txids_nodup store client addrHash fs hsorted hf
  have hprov := addressSpent_provenance spendIdx heightIdx fs ss hs
  simp only [addressUnspent, hf, hs]
  rw [foldl_filter]
  rw [List.filter_map]
  congr 2
  apply List.filter_congr
  intro f hfmem
  have hiff : (∀ s ∈ ss, ¬f.txHash = s.fundingTx)
      ↔ (∀ s ∈ ss, ¬(s.fundingTx = f.txHash ∧ f.res.map Prod.fst = some s.fundingIdx)) := by
    constructor
    · intro hl s hsmem hpair
      exact hl s hsmem hpair.1.symm
    · intro hr s hsmem htx
      obtain ⟨o, homem, ho1, ho2⟩ := hprov s hsmem
      have heq : f.txHash = o.txHash := by rw [htx, ho1]
      have hfo : f = o := List.inj_on_of_nodup_map hnodup hfmem homem heq
      apply hr s hsmem
      refine ⟨ho1.trans (by rw [hfo]), ?_⟩
      rw [hfo, ho2]
      rfl
  rw [Bool.eq_iff_iff]
  simp only [Function.comp_apply, List.all_eq_true, decide_eq_true_eq, ne_eq, toUnspent]
  exact hiff

/-- Witness for the unspent characterization on a concrete index. -/
theorem claim6_witness :
    addressUnspent wStore wSpendIdx wHeightIdx wClient 1
      = some ((wFunding.filter (fun f =>
          decide (∀ s ∈ wSpent, ¬(s.fundingTx = f.txHash ∧ f.res.map Prod.fst = some s.fundingIdx)))).map
            toUnspent) :=
  claim6_unspent wStore wSpendIdx wHeightIdx wClient 1 wFunding wSpent
    (by unfold StoreSorted; decide) (by decide) (by decide)

theorem keyLt_trans {a b c : Nat × Nat} (h1 : keyLt a b) (h2 : keyLt b c) : keyLt a c := by
  unfold keyLt at *
  omega

theorem keyLt_of_not (a b : Nat × Nat) (h1 : ¬keyLt a b) (h2 : a ≠ b) : keyLt b a := by
  unfold keyLt at *
  have hne : a.1 ≠ b.1 ∨ a.2 ≠ b.2 := by
    by_contra hc
    push_neg at hc
    exact h2 (Prod.ext hc.1 hc.2)
  omega

theorem mem_storePut (k : Nat × Nat) (v : Nat) :
    ∀ (store : List ((Nat × Nat) × Nat)) (x : (Nat × Nat) × Nat),
      x ∈ storePut k v store → x = (k, v) ∨ x ∈ store := by
  intro store
  induction store with
  | nil =>
    intro x hx
    rw [storePut] at hx
    exact Or.inl (List.mem_singleton.mp hx)
  | cons e rest ih =>
    intro x hx
    rw [storePut] at hx
    split_ifs at hx with h1 h2
    · rcases List.mem_cons.mp hx with hk | hmem
      · exact Or.inl hk
      · exact Or.inr hmem
    · rcases List.mem_cons.mp hx with hk | hmem
      · exact Or.inl hk
      · exact Or.inr (List.mem_cons_of_mem e hmem)
    · rcases List.mem_cons.mp hx with he | hmem
      · exact Or.inr (he ▸ List.mem_cons_self e rest)
      · rcases ih x hmem with hk | hr
        · exact Or.inl hk
        · exact Or.inr (List.mem_cons_of_mem e hr)

/-- storePut keeps the store in strictly ascending key order, so the
sortedness hypothesis of the queries holds for every store built from
batched puts. -/
theorem storePut_sorted (k : Nat × Nat) (v : Nat) :
    ∀ (store : List ((Nat × Nat) × Nat)),
      StoreSorted store → StoreSorted (storePut k v store) := by
  intro store
  induction store with
  | nil =>
    intro _
    unfold StoreSorted
    rw [storePut]
    exact List.pairwise_singleton _ _
  | cons e rest ih =>
    intro hs
    unfold StoreSorted at *
    obtain ⟨hhead, htail⟩ := List.pairwise_cons.mp hs
    rw [storePut]
    split_ifs with h1 h2
    · refine List.pairwise_cons.mpr ⟨?_, hs⟩
      intro b hb
      rcases List.mem_cons.mp hb with hbe | hbr
      · rw [hbe]; exact h1
      · exact keyLt_trans h1 (hhead b hbr)
    · refine List.pairwise_cons.mpr ⟨?_, htail⟩
      intro b hb
      show keyLt k b.1
      rw [h2]
      exact hhead b hb
    · refine List.pairwise_cons.mpr ⟨?_, ih htail⟩
      intro b hb
      rcases mem_storePut k v rest b hb with hbk | hbr
      · rw [hbk]
        exact keyLt_of_not k e.1 h1 h2
      · exact hhead b hbr

/-! ## Name index (src/lib/plugin.js, HnscanDB.nameHistory; util.js,
util.sortTXs; http.js, the GET /name/:name/history route)

The name history reaches the presentation layer through
HnscanDB.nameHistory — an ascending range scan of the layout.n family
(nameHash‖txid keys) — followed by util.sortTXs in the
GET /name/:name/history route. sortTXs sorts with the comparator
(a, b) => b.height - a.height, which returns 0 on equal heights and is
consistent, so Array.prototype.sort is required by ECMAScript 2019 to
sort stably: equal-height records keep the scan's ascending-txid
iteration order. (The Hnscan.getNameHistory variant instead sorts with
(a, b) => a.height < b.height ? 1 : -1, which never returns 0; for
such an inconsistent comparator ECMAScript leaves the order
implementation-defined, so that path fixes no tie order at all and is
not modelled here.) -/

structure NameRecord where
  txHash : Nat
  height : Nat
  deriving Repr, DecidableEq

/-- HnscanDB.nameHistory: range scan of layout.n for the name hash, in
store iteration order — ascending txid for a fixed name hash. -/
def nameHistory (store : List ((Nat × Nat) × Nat)) (nameHash : Nat) : List NameRecord :=
  (store.filter (fun e => decide (e.1.1 = nameHash))).map (fun e => ⟨e.1.2, e.2⟩)

/-- The order of util.sortTXs: the comparator b.height - a.height puts
a before b exactly when it is ≤ 0, i.e. when b.height ≤ a.height. -/
def byHeightDesc (a b : NameRecord) : Prop := b.height ≤ a.height

instance : DecidableRel byHeightDesc := fun a b => Nat.decLe b.height a.height

instance : IsTotal NameRecord byHeightDesc :=
  ⟨fun a b => (Nat.le_total b.height a.height).imp id id⟩

instance : IsTrans NameRecord byHeightDesc :=
  ⟨fun _ _ _ hab hbc => le_trans hbc hab⟩

/-- util.sortTXs: txs.sort((a, b) => b.height - a.height). The
comparator returns 0 on equal heights and is consistent, so the sort
is stable by the ECMAScript 2019 requirement on Array.prototype.sort;
the stable sort for byHeightDesc is insertion sort. -/
def sortTXs (txs : List NameRecord) : List NameRecord :=
  List.insertionSort byHeightDesc txs

/-- The GET /name/:name/history presentation path: the layout.n range
scan of HnscanDB.nameHistory followed by util.sortTXs. -/
def nameHistoryRoute (store : List ((Nat × Nat) × Nat)) (nameHash : Nat) : List NameRecord :=
  sortTXs (nameHistory store nameHash)

theorem orderedInsert_filter_eq (a : NameRecord) (h : Nat) (ha : a.height = h) :
    ∀ l : List NameRecord,
      (List.orderedInsert byHeightDesc a l).filter (fun x => decide (x.height = h))
        = a :: l.filter (fun x => decide (x.height = h)) := by
  intro l
  induction l with
  | nil => simp [List.orderedInsert, ha]
  | cons b l ih =>
    rw [List.orderedInsert]
    split_ifs with hr
    · simp [List.filter_cons, ha]
    · have hb : ¬b.height = h := by
        unfold byHeightDesc at hr
        omega
      simp [List.filter_cons, hb, ih]

theorem orderedInsert_filter_ne (a : NameRecord) (h : Nat) (ha : ¬a.height = h) :
    ∀ l : List NameRecord,
      (List.orderedInsert byHeightDesc a l).filter (fun x => decide (x.height = h))
        = l.filter (fun x => decide (x.height = h)) := by
  intro l
  induction l with
  | nil => simp [List.orderedInsert, ha]
  | cons b l ih =>
    rw [List.orderedInsert]
    split_ifs with hr
    · simp [List.filter_cons, ha]
    · simp [List.filter_cons, ih]

/-- Stability of the sortTXs model, per height class: within each
height the sorted output preserves the input order. -/
theorem insertionSort_filter_height (h : Nat) :
    ∀ l : List NameRecord,
      (List.insertionSort byHeightDesc l).filter (fun x => decide (x.height = h))
        = l.filter (fun x => decide (x.height = h)) := by
  intro l
  induction l with
  | nil => rfl
  | cons a l ih =>
    rw [List.insertionSort]
    by_cases ha : a.height = h
    · rw [orderedInsert_filter_eq a h ha, ih]
      simp [List.filter_cons, ha]
    · rw [orderedInsert_filter_ne a h ha, ih]
      simp [List.filter_cons, ha]

/-- C7 counterexample: two transactions for the same name at the same
height 10 are indexed with descending txids — txid 5 first, then
txid 3, so the insertion order is [5, 3] — but the layout.n range is
iterated in ascending key order [3, 5] and the stable sortTXs sort
keeps equal-height records in that iteration order: the served history
is [⟨3, 10⟩, ⟨5, 10⟩], not the insertion order [⟨5, 10⟩, ⟨3, 10⟩]. -/
theorem claim7_cex :
    nameHistoryRoute (storePut (7, 3) 10 (storePut (7, 5) 10 [])) 7
        = [⟨3, 10⟩, ⟨5, 10⟩] ∧
    [(⟨3, 10⟩ : NameRecord), ⟨5, 10⟩] ≠ [⟨5, 10⟩, ⟨3, 10⟩] :=
  ⟨by decide, by decide⟩

/-- C7 (amended): the served name history is sorted in descending
order by height and is a permutation of the scanned records; within
each height class the stable sort preserves the store's ascending-txid
iteration order — not the insertion order; records at heights
10, 40, 25 for one name come out as heights [40, 25, 10]. -/
theorem claim7_sorted (store : List ((Nat × Nat) × Nat)) (nameHash : Nat) :
    List.Sorted byHeightDesc (nameHistoryRoute store nameHash) ∧
    (nameHistoryRoute store nameHash).Perm (nameHistory store nameHash) ∧
    (∀ h : Nat,
      (nameHistoryRoute store nameHash).filter (fun x => decide (x.height = h))
        = (nameHistory store nameHash).filter (fun x => decide (x.height = h))) ∧
    (nameHistoryRoute
        (storePut (7, 21) 10 (storePut (7, 22) 40 (storePut (7, 23) 25 [])))
        7).map NameRecord.height = [40, 25, 10] :=
  ⟨List.sorted_insertionSort byHeightDesc (nameHistory store nameHash),
   List.perm_insertionSort byHeightDesc (nameHistory store nameHash),
   fun h => insertionSort_filter_height h (nameHistory store nameHash),
   by decide⟩

/-! ## Network verification and open
(src/lib/plugin.js, HnscanDB.verifyNetwork, HnscanDB.open, Plugin.open) -/

/-- HnscanDB.verifyNetwork: with no persisted magic, write the
configured one; with a persisted magic different from the configured
network's, throw; otherwise pass. The ok value is the magic persisted
after the call. -/
def verifyNetwork (storedMagic : Option Nat) (networkMagic : Nat) : Except String Nat :=
  match storedMagic with
  | none => Except.ok networkMagic
  | some magic =>
    if magic ≠ networkMagic then Except.error "Network mismatch for HnscanDB."
    else Except.ok magic

/-- HnscanDB.open: adopt the persisted chain state when getState finds
one, else keep the constructor state. -/
def hdbOpenState (storedState : Option ChainState) : ChainState :=
  match storedState with
  | some s => s
  | none => ChainState.initial

/-- Modelled from the spec: Plugin.open runs hdb.open, the indexer's
open, then the HTTP server's open; indexer.js is not among the
sources, and the spec requires a NetworkMismatch to be fatal at open,
aborting startup before queries are served — so the open pipeline runs
verifyNetwork and yields a queryable state only when it passes. -/
def openPipeline (storedMagic : Option Nat) (networkMagic : Nat)
    (storedState : Option ChainState) : Except String ChainState :=
  match verifyNetwork storedMagic networkMagic with
  | Except.error e => Except.error e
  | Except.ok _ => Except.ok (hdbOpenState storedState)

/-- C8: opening with a persisted magic number different from the
configured network's magic fails with the network-mismatch error
before any queryable state is produced. -/
theorem claim8_network_mismatch (m networkMagic : Nat) (storedState : Option ChainState)
    (h : m ≠ networkMagic) :
    openPipeline (some m) networkMagic storedState
      = Except.error "Network mismatch for HnscanDB." := by
  simp [openPipeline, verifyNetwork, h]

/-- Witness for the network mismatch at concrete magics. -/
theorem claim8_witness :
    openPipeline (some 100) 200 none = Except.error "Network mismatch for HnscanDB." :=
  claim8_network_mismatch 100 200 none (by decide)

/-- C9: when no chain state record is persisted, the state loaded at
open is the zero state: the 32-byte zero hash as tip and zero tx
count, coin count, circulating value and burned value. -/
theorem claim9_default_state :
    hdbOpenState none
      = { tip := zeroHash, tx := 0, coin := 0, value := 0, burned := 0 } := rfl

/-- Witness for the double buffering of the first point. -/
theorem claim10_witness :
    feedChart ChartState.initial
      [⟨86400, 2, 3, 4, 5, 6⟩, ⟨86401, 4, 1, 5, 6, 7⟩, ⟨172800, 8, 9, 10, 11, 12⟩]
      = some ⟨2, [⟨172800, 8, 9, 10, 11, 12⟩],
          [(172800, ChartData.fromArray ⟨86400, 2, 3, 4, 5, 6⟩
              [⟨86400, 2, 3, 4, 5, 6⟩, ⟨86401, 4, 1, 5, 6, 7⟩])]⟩ :=
  (claim10_double_push ⟨86400, 2, 3, 4, 5, 6⟩ ⟨86401, 4, 1, 5, 6, 7⟩
    ⟨172800, 8, 9, 10, 11, 12⟩ (by decide) (by decide) (by decide)).2.1

end Hnscan
